import Mathlib

/-!
Shallow embedding of the store-inventory application (src/app.py, src/models.py)
and proofs about the claims of the specification.

Modelling conventions:
* Python machine floats (binary64) are modelled exactly: a float value is a
  dyadic number `m * 2 ^ e` (structure `Dyadic`), and rounding an exact
  fraction `p / q` to the nearest binary64 value (round-to-nearest, ties to
  even, 53-bit significand) is `fl64Frac p q`.  Subnormals and overflow are
  irrelevant at the magnitudes the program handles and are not modelled.
* Prices are integers (cents).  The `product_price` column is nullable in the
  database, hence `Option ℤ` in the `Product` record.
* `datetime` values are modelled as naturals ordered chronologically; the
  date `m/d/y` is encoded as `y * 10000 + m * 100 + d`, which is monotone in
  the calendar order for in-range components.
* A Python exception that escapes an operation is modelled by `none`; since
  the sqlite session only persists on `commit()`, an operation that raises
  leaves the committed database unchanged.
-/

/-- Fuel-driven base-2 logarithm (`Nat.log2` is defined by well-founded
recursion, which the kernel cannot evaluate; this structural version can be
evaluated by `decide`).  `natLog2 fuel n` is `⌊log₂ n⌋` for `n ≥ 1` whenever
`fuel ≥ n`. -/
def natLog2 : ℕ → ℕ → ℕ
  | 0, _ => 0
  | fuel + 1, n => if n < 2 then 0 else natLog2 fuel (n / 2) + 1

/-- Round the fraction `a / b` (with `b > 0`) to the nearest integer, ties to
even — the rounding used both inside binary64 arithmetic and by Python's
`round()`. -/
def roundHalfEvenFrac (a b : ℤ) : ℤ :=
  let d := Int.fdiv a b
  let r := a - d * b
  if 2 * r < b then d
  else if b < 2 * r then d + 1
  else if Int.emod d 2 = 0 then d else d + 1

/-- A binary64 value, represented exactly as `m * 2 ^ e`. -/
structure Dyadic where
  m : ℤ
  e : ℤ
deriving DecidableEq, Repr

/-- The exact rational value of a dyadic number. -/
def dyadicVal (x : Dyadic) : ℚ :=
  if 0 ≤ x.e then ((x.m * Int.ofNat (2 ^ x.e.toNat) : ℤ) : ℚ)
  else (x.m : ℚ) / ((Int.ofNat (2 ^ (-x.e).toNat) : ℤ) : ℚ)

/-- `⌊log₂ (p / q)⌋` for positive `p`, `q`, via integer comparisons. -/
def ilog2Frac (p q : ℤ) : ℤ :=
  let e : ℤ := (natLog2 p.natAbs p.natAbs : ℤ) - (natLog2 q.natAbs q.natAbs : ℤ)
  -- `p / q < 2 ^ c`, decided on integers
  let lt2 : ℤ → Bool := fun c =>
    if 0 ≤ c then decide (p < q * Int.ofNat (2 ^ c.toNat))
    else decide (p * Int.ofNat (2 ^ (-c).toNat) < q)
  if lt2 e then e - 1 else if lt2 (e + 1) then e else e + 1

/-- Round the positive fraction `p / q` to binary64 (53-bit significand,
nearest, ties to even). -/
def fl64Pos (p q : ℤ) : Dyadic :=
  let e := ilog2Frac p q
  let m :=
    if 0 ≤ 52 - e then roundHalfEvenFrac (p * Int.ofNat (2 ^ (52 - e).toNat)) q
    else roundHalfEvenFrac p (q * Int.ofNat (2 ^ (e - 52).toNat))
  ⟨m, e - 52⟩

/-- Round the fraction `p / q` (with `q > 0`) to the nearest binary64 value.
This models both Python's `float(decimal-string)` (the exact decimal value,
rounded once) and the single rounding at the end of a float arithmetic
operation on exact inputs. -/
def fl64Frac (p q : ℤ) : Dyadic :=
  if p = 0 then ⟨0, 0⟩
  else if p < 0 then
    let d := fl64Pos (-p) q
    ⟨-d.m, d.e⟩
  else fl64Pos p q

/-- The binary64 product `x * 100.0` (the exact product, rounded once). -/
def dyadicMul100 (x : Dyadic) : Dyadic :=
  if 0 ≤ x.e then fl64Frac (x.m * 100 * Int.ofNat (2 ^ x.e.toNat)) 1
  else fl64Frac (x.m * 100) (Int.ofNat (2 ^ (-x.e).toNat))

/-- The binary64 quotient `x / 100.0` (the exact quotient, rounded once). -/
def dyadicDiv100 (x : Dyadic) : Dyadic :=
  if 0 ≤ x.e then fl64Frac (x.m * Int.ofNat (2 ^ x.e.toNat)) 100
  else fl64Frac x.m (100 * Int.ofNat (2 ^ (-x.e).toNat))

/-- Python `int(float)`: truncation toward zero. -/
def truncDyadic (x : Dyadic) : ℤ :=
  if 0 ≤ x.e then x.m * Int.ofNat (2 ^ x.e.toNat)
  else Int.tdiv x.m (Int.ofNat (2 ^ (-x.e).toNat))

/-- Python `round(float)`: nearest integer, ties to even. -/
def pyRoundDyadic (x : Dyadic) : ℤ :=
  if 0 ≤ x.e then x.m * Int.ofNat (2 ^ x.e.toNat)
  else roundHalfEvenFrac x.m (Int.ofNat (2 ^ (-x.e).toNat))

/-! ### Input parsing (src/app.py validators) -/

/-- Numeric value of a digit string (meaningful when all characters are
digits). -/
def digitsToNat (cs : List Char) : ℕ :=
  cs.foldl (fun n c => n * 10 + (c.toNat - 48)) 0

/-- Parse a non-empty all-digit character list. -/
def parseNatDigits (cs : List Char) : Option ℕ :=
  if cs ≠ [] ∧ cs.all Char.isDigit then some (digitsToNat cs) else none

/-- Parse a plain decimal literal (optional sign, digits, optional single
point), returning the exact value as `(mantissa, k)` with value
`mantissa / 10 ^ k`.  This is the fragment of Python's `float(str)` grammar
the application's data exercises (no exponent notation, no `inf`/`nan`, no
underscores, no surrounding whitespace). -/
def parseDecimal (cs : List Char) : Option (ℤ × ℕ) :=
  let core : List Char → Option (ℕ × ℕ) := fun body =>
    let ip := body.takeWhile Char.isDigit
    let rest := body.dropWhile Char.isDigit
    match rest with
    | [] => if ip = [] then none else some (digitsToNat ip, 0)
    | '.' :: fp =>
        if fp.all Char.isDigit ∧ (ip ≠ [] ∨ fp ≠ []) then
          some (digitsToNat ip * 10 ^ fp.length + digitsToNat fp, fp.length)
        else none
    | _ => none
  match cs with
  | '-' :: body => (core body).map (fun nk => (-(nk.1 : ℤ), nk.2))
  | '+' :: body => (core body).map (fun nk => ((nk.1 : ℤ), nk.2))
  | body => (core body).map (fun nk => ((nk.1 : ℤ), nk.2))

/-- `price_str.lstrip('$')`: drop every leading dollar sign. -/
def strip_dollar (s : String) : List Char :=
  s.data.dropWhile (fun c => c = '$')

/-- The binary64 value of `float(price_str.lstrip('$')) * 100` for a parsed
decimal `(n, k)`. -/
def pyPriceTimes100 (n : ℤ) (k : ℕ) : Dyadic :=
  dyadicMul100 (fl64Frac n (Int.ofNat (10 ^ k)))

/-- `clean_price` (src/app.py:85-104): strip leading `$`, convert to float,
multiply by 100 and truncate to an integer with `int(...)`; `None` (here
`none`) on unparseable input. -/
def clean_price (s : String) : Option ℤ :=
  (parseDecimal (strip_dollar s)).map (fun nk => truncDyadic (pyPriceTimes100 nk.1 nk.2))

/-- Python `int(str)`: optional sign and digits (the whitespace-stripping of
`int` is not exercised by the data and is not modelled). -/
def parseIntStr (s : String) : Option ℤ :=
  match s.data with
  | '-' :: t => (parseNatDigits t).map (fun n => -(n : ℤ))
  | '+' :: t => (parseNatDigits t).map (fun n => (n : ℤ))
  | cs => (parseNatDigits cs).map (fun n => (n : ℤ))

/-- Split a character list at `'/'` (Python `str.split('/')`). -/
def splitSlashGo (acc : List Char) : List Char → List (List Char)
  | [] => [acc.reverse]
  | c :: t => if c = '/' then acc.reverse :: splitSlashGo [] t else splitSlashGo (c :: acc) t

/-- Python `date_str.split('/')`. -/
def splitSlash (cs : List Char) : List (List Char) :=
  splitSlashGo [] cs

/-- `clean_date` (src/app.py:56-70): split on `/`, read month, day, year, and
build a timestamp; fails (raises) when a component is missing, non-numeric or
out of `datetime`'s range.  Month lengths are simplified to 31 days. -/
def clean_date (s : String) : Option ℕ :=
  let parts := splitSlash s.data
  match parts.get? 2, parts.get? 0, parts.get? 1 with
  | some ys, some ms, some ds =>
      match parseNatDigits ys, parseNatDigits ms, parseNatDigits ds with
      | some y, some m, some d =>
          if 1 ≤ y ∧ y ≤ 9999 ∧ 1 ≤ m ∧ m ≤ 12 ∧ 1 ≤ d ∧ d ≤ 31 then
            some (y * 10000 + m * 100 + d)
          else none
      | _, _, _ => none
  | _, _, _ => none

/-! ### Statistics (Python `statistics` module, as used in `analyze_products`) -/

/-- Arithmetic mean of a price list (the `statistics` module computes it
exactly before converting to float; the values involved are exactly
representable). -/
def meanOf (xs : List ℤ) : ℚ :=
  ((xs.map (fun x : ℤ => (x : ℚ))).sum) / (xs.length : ℚ)

/-- `statistics.mean`: raises `StatisticsError` on an empty sequence. -/
def meanQ (xs : List ℤ) : Option ℚ :=
  if xs.length = 0 then none else some (meanOf xs)

/-- Python `sorted(data)` on integers (any sorting algorithm yields the same
list here, since the sorted permutation of integers is unique). -/
def sortedInts (xs : List ℤ) : List ℤ :=
  List.insertionSort (· ≤ ·) xs

/-- `statistics.median`: sort; middle element for odd length, average of the
two central elements for even length; raises on empty input. -/
def medianQ (xs : List ℤ) : Option ℚ :=
  let s := sortedInts xs
  let n := xs.length
  if n = 0 then none
  else if n % 2 = 1 then some ((s.getD (n / 2) 0 : ℤ) : ℚ)
  else some ((((s.getD (n / 2 - 1) 0 : ℤ) : ℚ) + ((s.getD (n / 2) 0 : ℤ) : ℚ)) / 2)

/-- The largest multiplicity occurring in the list. -/
def maxCount (xs : List ℤ) : ℕ :=
  (xs.map (fun x => xs.count x)).foldr max 0

/-- `statistics.mode` (Python ≥ 3.8): the first value of maximal multiplicity
in **data order** (`Counter` preserves first-insertion order and
`most_common` is stable); raises on empty input. -/
def modeQ (xs : List ℤ) : Option ℤ :=
  xs.find? (fun x => xs.count x == maxCount xs)

/-- Modelled from the spec: the reference tie-break claimed in the spec,
"the first most-frequent value encountered when scanning in ascending
order".  Used only to compare against the implementation's behavior. -/
def modeAscendingSpec (xs : List ℤ) : Option ℤ :=
  (sortedInts xs).find? (fun x => xs.count x == maxCount xs)

/-- `statistics._ss`: sum of squared deviations from `c`, with the exact
correction term `(Σ (x - c))² / n` subtracted (CPython's implementation). -/
def ssQ (xs : List ℤ) (c : ℚ) : ℚ :=
  (xs.map (fun x : ℤ => ((x : ℚ) - c) ^ 2)).sum
    - ((xs.map (fun x : ℤ => (x : ℚ) - c)).sum) ^ 2 / (xs.length : ℚ)

/-- `statistics.pvariance`: population variance, `_ss(data, mean) / n`;
raises on empty input.  The module computes this exactly (via `Fraction`). -/
def pvarianceQ (xs : List ℤ) : Option ℚ :=
  if xs.length = 0 then none else some (ssQ xs (meanOf xs) / (xs.length : ℚ))

/-- The population variance as one exact integer fraction:
`Σ (n·x - Σx)² / n³`.  (Algebraically equal to `pvarianceQ`; proved below as
`varFrac_eq_pvariance`.)  This integer form lets the float rounding that
follows be evaluated by the kernel. -/
def varFrac (xs : List ℤ) : ℤ × ℤ :=
  let n : ℤ := xs.length
  let s : ℤ := xs.sum
  ((xs.map (fun x => (n * x - s) * (n * x - s))).sum, n * n * n)

/-- `pv = round(pvariance(product_prices) / 100)` (src/app.py:538): the exact
variance converted to float, divided by `100` in float arithmetic, then
rounded half-to-even to an integer by Python's `round`. -/
def pvReported (xs : List ℤ) : Option ℤ :=
  if xs.length = 0 then none
  else some (pyRoundDyadic (dyadicDiv100 (fl64Frac (varFrac xs).1 (varFrac xs).2)))

/-- `statistics.pstdev` (src/app.py:555): the square root of the population
variance.  The float square root is modelled by the exact real square root
(its value is irrational in general, so this definition lives in `ℝ`). -/
noncomputable def pstdevR (xs : List ℤ) : Option ℝ :=
  (pvarianceQ xs).map (fun v => Real.sqrt (v : ℝ))

/-- `statistics.quantiles(data)` with the default `n=4`, method "exclusive":
raises when fewer than two data points; otherwise linear interpolation
between order statistics of the sorted data. -/
def quantilesQ (xs : List ℤ) : Option (List ℚ) :=
  let ld := xs.length
  if ld < 2 then none
  else
    let s := sortedInts xs
    let m := ld + 1
    some ((List.range 3).map (fun i0 =>
      let i := i0 + 1
      let j := min (max (i * m / 4) 1) (ld - 1)
      let delta : ℤ := (i * m : ℕ) - (j * 4 : ℕ)
      (((s.getD (j - 1) 0 : ℤ) : ℚ) * ((4 : ℚ) - (delta : ℚ))
        + ((s.getD j 0 : ℤ) : ℚ) * (delta : ℚ)) / 4))

/-! ### Data model (src/models.py) -/

/-- A row of the `brands` table. -/
structure Brand where
  brand_id : ℕ
  brand_name : String
deriving DecidableEq, Repr

/-- A row of the `products` table.  `product_price` and `brand_id` are
nullable columns. -/
structure Product where
  product_id : ℕ
  product_name : String
  product_quantity : ℤ
  product_price : Option ℤ
  date_updated : ℕ
  brand_id : Option ℕ
deriving DecidableEq, Repr

/-- The committed contents of the sqlite database. -/
structure DbState where
  brands : List Brand
  products : List Product
deriving DecidableEq, Repr

/-- `get_brand_name` (src/app.py:167-177): brand name for an id, `"None"`
when the id is null or absent. -/
def get_brand_name (brands : List Brand) (bid : Option ℕ) : String :=
  match bid with
  | none => "None"
  | some i =>
      match brands.find? (fun b => b.brand_id == i) with
      | some b => b.brand_name
      | none => "None"

/-! ### Operations (src/app.py) -/

/-- Replace the first element satisfying `pb` by its image under `f` (the
mutation of a single ORM row, in place). -/
def updateFirst (pb : Product → Bool) (f : Product → Product) : List Product → List Product
  | [] => []
  | q :: t => if pb q then f q :: t else q :: updateFirst pb f t

/-- The primary key sqlite assigns to a freshly inserted product row. -/
def nextId (ps : List Product) : ℕ :=
  (ps.map (fun p => p.product_id)).foldr max 0 + 1

/-- The greatest `date_updated` among the products named `name`. -/
def latestDate (ps : List Product) (name : String) : ℕ :=
  ((ps.filter (fun p => p.product_name == name)).map (fun p => p.date_updated)).foldr max 0

/-- `add_product` (src/app.py:280-338), after the interactive input loops have
produced validated values.  If products named `name` exist, the first row of
the query ordered by `date_updated` descending — i.e. the first-positioned row
carrying the latest `date_updated` — is overwritten with the new quantity,
price, brand and timestamp; otherwise a fresh row is inserted.  Changes are
committed only when the operator confirms with `y`. -/
def add_product (s : DbState) (name : String) (qty price : ℤ) (brand : Option ℕ)
    (now : ℕ) (confirm : Bool) : DbState :=
  if 0 < (s.products.filter (fun p => p.product_name == name)).length then
    if confirm then
      let updated := updateFirst
        (fun p => p.product_name == name && p.date_updated == latestDate s.products name)
        (fun p => { p with product_quantity := qty, product_price := some price,
                           brand_id := brand, date_updated := now })
        s.products
      { s with products := updated }
    else s
  else
    if confirm then
      let inserted := s.products ++
        [{ product_id := nextId s.products, product_name := name, product_quantity := qty,
           product_price := some price, date_updated := now, brand_id := brand }]
      { s with products := inserted }
    else s

/-! ### CSV backup (src/app.py:406-426) -/

/-- The header row written by `backup_db`. -/
def backupHeader : List String :=
  ["product_id", "product_name", "product_quantity", "product_price", "brand_id", "date_updated"]

/-- `csv.writer` cell for a nullable integer column (`None` becomes the empty
cell). -/
def optIntCell : Option ℤ → String
  | none => ""
  | some n => toString n

/-- `csv.writer` cell for a nullable id column. -/
def optNatCell : Option ℕ → String
  | none => ""
  | some n => toString n

/-- The cells written for one product row: id, name, quantity, the raw
integer price (minor units, not divided by 100), brand id, timestamp. -/
def backupRow (p : Product) : List String :=
  [toString p.product_id, p.product_name, toString p.product_quantity,
   optIntCell p.product_price, optNatCell p.brand_id, toString p.date_updated]

/-- `ORDER BY product_id` ascending. -/
def idLe (a b : Product) : Prop := a.product_id ≤ b.product_id

instance : DecidableRel idLe := fun a b => Nat.decLe a.product_id b.product_id

instance : IsTotal Product idLe := ⟨fun a b => Nat.le_total a.product_id b.product_id⟩

instance : IsTrans Product idLe := ⟨fun _ _ _ h h2 => Nat.le_trans h h2⟩

/-- `backup_db` (src/app.py:406-426): the list of CSV rows written to
`inventory-backup.csv` — the header followed by one row per product in
ascending `product_id` order. -/
def backup_db (s : DbState) : List (List String) :=
  backupHeader :: (List.insertionSort idLe s.products).map backupRow

/-! ### CSV import of products (src/app.py:617-640) -/

/-- One data row of `inventory.csv` (header
`product_name, product_quantity, product_price, brand_name, date_updated`);
all fields are raw text. -/
structure CsvRow where
  product_name : String
  product_quantity : String
  product_price : String
  brand_name : String
  date_updated : String
deriving DecidableEq, Repr

/-- `session.query(Brand).filter_by(brand_name=...).one()`: succeeds exactly
when a single brand carries the name; raises (`NoResultFound` /
`MultipleResultsFound`) otherwise. -/
def lookupBrandOne (brands : List Brand) (name : String) : Option ℕ :=
  match brands.filter (fun b => b.brand_name == name) with
  | [b] => some b.brand_id
  | _ => none

/-- Processing of a single CSV row: skip it when a product of the same name
already exists, otherwise build the new row — `int(quantity)`, `clean_date`
and the brand lookup can each raise, aborting the import (`none`);
`clean_price` cannot raise (it returns `None`, stored as a null price). -/
def import_step (brands : List Brand) (ps : List Product) (r : CsvRow) : Option (List Product) :=
  if (ps.filter (fun p => p.product_name == r.product_name)).length = 0 then
    match parseIntStr r.product_quantity, clean_date r.date_updated,
        lookupBrandOne brands r.brand_name with
    | some q, some d, some bid =>
        some (ps ++ [{ product_id := nextId ps, product_name := r.product_name,
                       product_quantity := q, product_price := clean_price r.product_price,
                       date_updated := d, brand_id := some bid }])
    | _, _, _ => none
  else some ps

/-- Sequential processing of the remaining rows; an exception in any row
aborts the whole loop. -/
def import_rows (brands : List Brand) (ps : List Product) : List CsvRow → Option (List Product)
  | [] => some ps
  | r :: rest =>
      match import_step brands ps r with
      | some ps2 => import_rows brands ps2 rest
      | none => none

/-- `add_products_csv` (src/app.py:617-640).  `session.commit()` runs only
after the loop over all rows; an exception while processing any row
propagates out of the function, so nothing of the batch is committed —
the result is `none` and the stored products are unchanged. -/
def add_products_csv (brands : List Brand) (ps : List Product) (rows : List CsvRow) :
    Option (List Product) :=
  import_rows brands ps rows

/-! ### Product analysis (src/app.py:456-594) -/

/-- Collect the price column; a null price would later make `statistics.mean`
raise a `TypeError`, so the whole analysis fails in that case. -/
def seqPrices : List (Option ℤ) → Option (List ℤ)
  | [] => some []
  | x :: t =>
      match x, seqPrices t with
      | some v, some vs => some (v :: vs)
      | _, _ => none

/-- Distinct elements in order of first occurrence. -/
def dedupGo (seen : List ℕ) : List ℕ → List ℕ
  | [] => []
  | x :: t => if x ∈ seen then dedupGo seen t else x :: dedupGo (x :: seen) t

/-- `GROUP BY brand_id` with `COUNT(product_id)`, after filtering out null
and zero brand ids (`Product.brand_id != 0` in SQL excludes NULL as well). -/
def brandGroups (ps : List Product) : List (ℕ × ℕ) :=
  let ids := (ps.filterMap (fun p => p.brand_id)).filter (fun i => i != 0)
  (dedupGo [] ids).map (fun b => (b, ids.count b))

/-- Largest group size. -/
def maxSnd (gs : List (ℕ × ℕ)) : ℕ := (gs.map (fun g => g.2)).foldr max 0

/-- Smallest group size. -/
def minSnd : List (ℕ × ℕ) → ℕ
  | [] => 0
  | g :: t => (t.map (fun x => x.2)).foldr min g.2

/-- `one_or_none` followed by an attribute access: succeeds exactly when a
single brand carries the id. -/
def brandById (brands : List Brand) (i : ℕ) : Option Brand :=
  match brands.filter (fun b => b.brand_id == i) with
  | [b] => some b
  | _ => none

/-- `ORDER BY product_price` (`NULLS FIRST`, sqlite's ascending order). -/
def priceLeB (a b : Product) : Bool :=
  match a.product_price, b.product_price with
  | none, _ => true
  | some _, none => false
  | some x, some y => decide (x ≤ y)

/-- `ORDER BY date_updated` ascending. -/
def dateLeB (a b : Product) : Bool := decide (a.date_updated ≤ b.date_updated)

/-- `ORDER BY product_quantity` ascending. -/
def qtyLeB (a b : Product) : Bool := decide (a.product_quantity ≤ b.product_quantity)

/-- The values printed by `analyze_products` (the standard deviation line is
modelled separately by `pstdevR`, since its value is irrational). -/
structure Report where
  total : ℕ
  mostExpensive : Product
  leastExpensive : Product
  oldest : Product
  newest : Product
  highQty : Product
  lowQty : Product
  meanPrice : ℚ
  modePrice : ℤ
  medianPrice : ℚ
  mostCommonBrand : Brand × ℕ
  leastCommonBrand : Brand × ℕ
  pv : ℤ
  quartiles : List ℚ

/-- `analyze_products` (src/app.py:456-594): a pure read of the database
state.  Each `first()` of an ordered query is the head of the corresponding
sorted list; aggregates are computed over the price column; any of the
statistics raising (empty data, null prices, missing brand row, fewer than
two data points for `quantiles`) aborts the report (`none`). -/
def analyze_products (s : DbState) : Option Report := do
  let ps := s.products
  let meOpt := (List.insertionSort (fun a b => priceLeB b a = true) ps).head?
  let leOpt := (List.insertionSort (fun a b => priceLeB a b = true) ps).head?
  let oldOpt := (List.insertionSort (fun a b => dateLeB a b = true) ps).head?
  let newOpt := (List.insertionSort (fun a b => dateLeB b a = true) ps).head?
  let hqOpt := (List.insertionSort (fun a b => qtyLeB b a = true) ps).head?
  let lqOpt := (List.insertionSort (fun a b => qtyLeB a b = true) ps).head?
  let prices ← seqPrices (ps.map (fun p => p.product_price))
  let mean ← meanQ prices
  let mode ← modeQ prices
  let median ← medianQ prices
  let groups := brandGroups ps
  let mc ← groups.find? (fun g => g.2 == maxSnd groups)
  let lc ← groups.find? (fun g => g.2 == minSnd groups)
  let mcb ← brandById s.brands mc.1
  let lcb ← brandById s.brands lc.1
  let pv ← pvReported prices
  let qs ← quantilesQ prices
  let me ← meOpt
  let le ← leOpt
  let old ← oldOpt
  let new ← newOpt
  let hq ← hqOpt
  let lq ← lqOpt
  pure { total := ps.length, mostExpensive := me, leastExpensive := le, oldest := old,
         newest := new, highQty := hq, lowQty := lq, meanPrice := mean, modePrice := mode,
         medianPrice := median, mostCommonBrand := (mcb, mc.2),
         leastCommonBrand := (lcb, lc.2), pv := pv, quartiles := qs }

/-- The analysis as a state transformer: it returns its result next to the
(unchanged) database state — `analyze_products` contains no INSERT, UPDATE,
DELETE or `commit`. -/
def analyze_products_op (s : DbState) : DbState × Option Report :=
  (s, analyze_products s)

/-! ### Helper lemmas -/

theorem le_foldrMax {l : List ℕ} {n : ℕ} (h : n ∈ l) : n ≤ l.foldr max 0 := by
  induction l with
  | nil => cases h
  | cons a t ih =>
      rw [List.mem_cons] at h
      rcases h with rfl | h
      · exact le_max_left _ _
      · exact le_trans (ih h) (le_max_right _ _)

theorem foldrMax_le {l : List ℕ} {d : ℕ} (h : ∀ n ∈ l, n ≤ d) : l.foldr max 0 ≤ d := by
  induction l with
  | nil => exact Nat.zero_le d
  | cons a t ih =>
      exact max_le (h a (List.mem_cons_self a t)) (ih fun n hn => h n (List.mem_cons_of_mem a hn))

theorem foldrMax_mem {l : List ℕ} (h : l ≠ []) : l.foldr max 0 ∈ l := by
  induction l with
  | nil => exact absurd rfl h
  | cons a t ih =>
      cases t with
      | nil => simp
      | cons b u =>
          rw [List.foldr_cons]
          rcases max_choice a ((b :: u).foldr max 0) with hm | hm
          · rw [hm]
            exact List.mem_cons_self _ _
          · rw [hm]
            exact List.mem_cons_of_mem a (ih (by simp))

theorem find?_indexOf_le {p : ℤ → Bool} {l : List ℤ} {m : ℤ}
    (h : l.find? p = some m) : ∀ y ∈ l, p y = true → l.indexOf m ≤ l.indexOf y := by
  induction l with
  | nil => cases h
  | cons a t ih =>
      intro y hy hpy
      by_cases hpa : p a = true
      · have hm : m = a := by
          have : List.find? p (a :: t) = some a := by
            rw [List.find?_cons, hpa]
          rw [this] at h
          exact (Option.some_inj.mp h).symm
        rw [hm, List.indexOf_cons_self]
        exact Nat.zero_le _
      · rw [Bool.not_eq_true] at hpa
        have ht : List.find? p t = some m := by
          rw [List.find?_cons, hpa] at h
          exact h
        have hma : m ≠ a := by
          intro hma
          have := List.find?_some ht
          rw [hma, hpa] at this
          cases this
        have hya : y ≠ a := by
          intro hya
          rw [hya, hpa] at hpy
          cases hpy
        rw [List.mem_cons] at hy
        rcases hy with hy | hy
        · exact absurd hy hya
        · rw [List.indexOf_cons_ne t (Ne.symm hma), List.indexOf_cons_ne t (Ne.symm hya)]
          exact Nat.succ_le_succ (ih ht y hy hpy)

theorem find?_of_exists {p : ℤ → Bool} {l : List ℤ}
    (h : ∃ x ∈ l, p x = true) : ∃ m, l.find? p = some m := by
  cases hf : l.find? p with
  | some m => exact ⟨m, rfl⟩
  | none =>
      obtain ⟨x, hx, hpx⟩ := h
      exact absurd hpx (by simpa using List.find?_eq_none.mp hf x hx)

theorem sum_map_sub_const (xs : List ℤ) (c : ℚ) :
    (xs.map (fun x : ℤ => (x : ℚ) - c)).sum
      = (xs.map (fun x : ℤ => (x : ℚ))).sum - (xs.length : ℚ) * c := by
  induction xs with
  | nil => simp
  | cons a t ih =>
      simp only [List.map_cons, List.sum_cons, List.length_cons]
      rw [ih]
      push_cast
      ring

theorem sum_dev_mean_zero {xs : List ℤ} (h : xs ≠ []) :
    (xs.map (fun x : ℤ => (x : ℚ) - meanOf xs)).sum = 0 := by
  have hn : (xs.length : ℚ) ≠ 0 := by
    have hl : xs.length ≠ 0 := fun h0 => h (List.length_eq_zero.mp h0)
    exact_mod_cast hl
  rw [sum_map_sub_const, meanOf]
  field_simp

theorem pvarianceQ_eq {xs : List ℤ} (h : xs ≠ []) :
    pvarianceQ xs
      = some ((xs.map (fun x : ℤ => ((x : ℚ) - meanOf xs) ^ 2)).sum / (xs.length : ℚ)) := by
  have hlen : xs.length ≠ 0 := fun h0 => h (List.length_eq_zero.mp h0)
  rw [pvarianceQ, if_neg hlen, ssQ, sum_dev_mean_zero h]
  norm_num

theorem pvarianceQ_nonneg {xs : List ℤ} {v : ℚ} (h : pvarianceQ xs = some v) : 0 ≤ v := by
  have hne : xs ≠ [] := by
    intro h0
    rw [h0] at h
    simp [pvarianceQ] at h
  rw [pvarianceQ_eq hne] at h
  have hv : v = (xs.map (fun x : ℤ => ((x : ℚ) - meanOf xs) ^ 2)).sum / (xs.length : ℚ) :=
    (Option.some_inj.mp h).symm
  rw [hv]
  apply div_nonneg
  · apply List.sum_nonneg
    intro x hx
    obtain ⟨y, _, rfl⟩ := List.mem_map.mp hx
    positivity
  · positivity

theorem sum_map_mul_left_q (xs : List ℤ) (c : ℚ) (g : ℤ → ℚ) :
    (xs.map (fun x : ℤ => c * g x)).sum = c * (xs.map g).sum := by
  induction xs with
  | nil => simp
  | cons a t ih =>
      simp only [List.map_cons, List.sum_cons]
      rw [ih]
      ring

theorem cast_sum_map (xs : List ℤ) (g : ℤ → ℤ) :
    (((xs.map g).sum : ℤ) : ℚ) = (xs.map (fun x : ℤ => ((g x : ℤ) : ℚ))).sum := by
  induction xs with
  | nil => simp
  | cons a t ih =>
      simp only [List.map_cons, List.sum_cons, Int.cast_add]
      rw [ih]

theorem intCast_list_sum (xs : List ℤ) :
    ((xs.sum : ℤ) : ℚ) = (xs.map (fun x : ℤ => (x : ℚ))).sum := by
  induction xs with
  | nil => simp
  | cons a t ih =>
      simp only [List.sum_cons, List.map_cons, Int.cast_add]
      rw [ih]

/-- The integer fraction `varFrac` has exactly the value of the population
variance (this justifies evaluating the float conversion in `pvReported` on
the integer fraction). -/
theorem varFrac_eq_pvariance {xs : List ℤ} (h : xs ≠ []) :
    ((varFrac xs).1 : ℚ) / ((varFrac xs).2 : ℚ)
      = (xs.map (fun x : ℤ => ((x : ℚ) - meanOf xs) ^ 2)).sum / (xs.length : ℚ) := by
  have hn : (xs.length : ℚ) ≠ 0 := by
    have hl : xs.length ≠ 0 := fun h0 => h (List.length_eq_zero.mp h0)
    exact_mod_cast hl
  unfold varFrac
  simp only
  rw [cast_sum_map]
  have hmap : (xs.map (fun x : ℤ =>
        ((((xs.length : ℤ) * x - xs.sum) * ((xs.length : ℤ) * x - xs.sum) : ℤ) : ℚ)))
      = xs.map (fun x : ℤ => ((xs.length : ℚ) * (xs.length : ℚ)) * ((x : ℚ) - meanOf xs) ^ 2) := by
    apply List.map_congr_left
    intro x _
    simp only [Int.cast_mul, Int.cast_sub, Int.cast_natCast, intCast_list_sum]
    rw [meanOf]
    field_simp
    ring
  rw [hmap, sum_map_mul_left_q]
  push_cast
  field_simp
  ring

theorem roundHalfEvenFrac_nonneg {a b : ℤ} (ha : 0 ≤ a) (hb : 0 < b) :
    0 ≤ roundHalfEvenFrac a b := by
  have hd : 0 ≤ Int.fdiv a b := Int.fdiv_nonneg ha (le_of_lt hb)
  simp only [roundHalfEvenFrac]
  split_ifs <;> omega

theorem intPow2_pos (k : ℕ) : 0 < Int.ofNat (2 ^ k) :=
  Int.ofNat_pos.mpr (Nat.pos_pow_of_pos k (by omega))

theorem fl64Pos_m_nonneg {p q : ℤ} (hp : 0 ≤ p) (hq : 0 < q) : 0 ≤ (fl64Pos p q).m := by
  simp only [fl64Pos]
  split_ifs
  · exact roundHalfEvenFrac_nonneg (mul_nonneg hp (le_of_lt (intPow2_pos _))) hq
  · exact roundHalfEvenFrac_nonneg hp (mul_pos hq (intPow2_pos _))

theorem fl64Frac_m_nonneg {p q : ℤ} (hp : 0 ≤ p) (hq : 0 < q) : 0 ≤ (fl64Frac p q).m := by
  simp only [fl64Frac]
  split_ifs with h0 hneg
  · exact le_refl 0
  · exact absurd hneg (not_lt.mpr hp)
  · exact fl64Pos_m_nonneg hp hq

theorem dyadicMul100_m_nonneg {x : Dyadic} (h : 0 ≤ x.m) : 0 ≤ (dyadicMul100 x).m := by
  simp only [dyadicMul100]
  split_ifs
  · exact fl64Frac_m_nonneg
      (mul_nonneg (mul_nonneg h (by norm_num)) (le_of_lt (intPow2_pos _))) (by norm_num)
  · exact fl64Frac_m_nonneg (mul_nonneg h (by norm_num)) (intPow2_pos _)

theorem truncDyadic_bounds {x : Dyadic} (h : 0 ≤ x.m) :
    ((truncDyadic x : ℤ) : ℚ) ≤ dyadicVal x ∧ dyadicVal x < ((truncDyadic x : ℤ) : ℚ) + 1 := by
  by_cases he : 0 ≤ x.e
  · rw [truncDyadic, dyadicVal, if_pos he, if_pos he]
    exact ⟨le_refl _, lt_add_one _⟩
  · rw [truncDyadic, dyadicVal, if_neg he, if_neg he]
    have hDpos : 0 < Int.ofNat (2 ^ (-x.e).toNat) := intPow2_pos _
    set D : ℤ := Int.ofNat (2 ^ (-x.e).toNat) with hD
    have hDQ : (0 : ℚ) < (D : ℚ) := by exact_mod_cast hDpos
    have htd : Int.tdiv x.m D = x.m / D := Int.tdiv_eq_ediv h (le_of_lt hDpos)
    rw [htd]
    have hmod : D * (x.m / D) + x.m % D = x.m := Int.ediv_add_emod x.m D
    have h0r : 0 ≤ x.m % D := Int.emod_nonneg x.m (ne_of_gt hDpos)
    have hrD : x.m % D < D := Int.emod_lt_of_pos x.m hDpos
    constructor
    · rw [le_div_iff₀ hDQ]
      have hle : (x.m / D) * D ≤ x.m := by nlinarith [hmod, h0r]
      exact_mod_cast hle
    · rw [div_lt_iff₀ hDQ]
      have hlt : x.m < (x.m / D + 1) * D := by nlinarith [hmod, hrD]
      exact_mod_cast hlt

theorem import_rows_append (brands : List Brand) (ps : List Product)
    (pre rest : List CsvRow) :
    import_rows brands ps (pre ++ rest)
      = (import_rows brands ps pre).bind (fun ps1 => import_rows brands ps1 rest) := by
  induction pre generalizing ps with
  | nil => rfl
  | cons r t ih =>
      show import_rows brands ps (r :: (t ++ rest)) = _
      cases h : import_step brands ps r with
      | none => simp [import_rows, h]
      | some ps2 => simp [import_rows, h, ih]

theorem import_step_fails {brands : List Brand} {ps : List Product} {r : CsvRow}
    (hdup : (ps.filter (fun p => p.product_name == r.product_name)).length = 0)
    (hbrand : lookupBrandOne brands r.brand_name = none) :
    import_step brands ps r = none := by
  rw [import_step, if_pos hdup]
  cases hq : parseIntStr r.product_quantity <;> cases hd : clean_date r.date_updated <;>
    rw [hbrand]

theorem updateFirst_decomp {pb : Product → Bool} {f : Product → Product}
    {l : List Product} {p : Product}
    (huniq : ∀ q ∈ l, pb q = true → q = p) (hp : p ∈ l) (hpb : pb p = true) :
    ∃ pre post, l = pre ++ p :: post ∧ updateFirst pb f l = pre ++ f p :: post := by
  induction l with
  | nil => cases hp
  | cons a t ih =>
      by_cases hpa : pb a = true
      · have hap : a = p := huniq a (List.mem_cons_self a t) hpa
        refine ⟨[], t, ?_, ?_⟩
        · rw [hap]
          rfl
        · rw [updateFirst, if_pos hpa, hap]
          rfl
      · have hpt : p ∈ t := by
          rw [List.mem_cons] at hp
          rcases hp with hp | hp
          · rw [← hp] at hpa
            exact absurd hpb hpa
          · exact hp
        obtain ⟨pre, post, hl, hu⟩ :=
          ih (fun q hq hpq => huniq q (List.mem_cons_of_mem a hq) hpq) hpt
        refine ⟨a :: pre, post, ?_, ?_⟩
        · rw [hl]
          rfl
        · rw [updateFirst, if_neg hpa, hu]
          rfl

theorem intPow10_pos (k : ℕ) : 0 < Int.ofNat (10 ^ k) :=
  Int.ofNat_pos.mpr (Nat.pos_pow_of_pos k (by omega))

/-- Shared concrete evaluation: the population variance of the spec's example
price list `[999, 1299, 1299, 500]` is `1705803 / 16 = 106612.6875`. -/
theorem pvarianceQ_example :
    pvarianceQ [999, 1299, 1299, 500] = some (1705803 / 16) := by
  norm_num [pvarianceQ, ssQ, meanOf]

/-! ### Claims -/

/-- C1 (amended): `clean_price` does not round: it truncates.  For every
input whose stripped form parses as a nonnegative decimal `n / 10 ^ k`, the
returned integer is the value of the binary64 product `float(text) * 100`
truncated toward zero (so it is the unique integer `t` with
`t ≤ value < t + 1`); the spec's examples `"12.99" ↦ 1299`, `"$5" ↦ 500` and
`"abc" ↦ error` do hold. -/
theorem clean_price_truncates :
    (∀ (s : String) (n : ℤ) (k : ℕ),
        parseDecimal (strip_dollar s) = some (n, k) → 0 ≤ n →
        ∃ t : ℤ, clean_price s = some t ∧
          (t : ℚ) ≤ dyadicVal (pyPriceTimes100 n k) ∧
          dyadicVal (pyPriceTimes100 n k) < (t : ℚ) + 1)
    ∧ clean_price "12.99" = some 1299
    ∧ clean_price "$5" = some 500
    ∧ clean_price "abc" = none := by
  refine ⟨?_, by decide, by decide, by decide⟩
  intro s n k hp hn
  have hm : 0 ≤ (pyPriceTimes100 n k).m :=
    dyadicMul100_m_nonneg (fl64Frac_m_nonneg hn (intPow10_pos k))
  refine ⟨truncDyadic (pyPriceTimes100 n k), ?_, (truncDyadic_bounds hm).1,
    (truncDyadic_bounds hm).2⟩
  rw [clean_price, hp]
  rfl

/-- C1 witness: the general truncation bound instantiated at the input
`"4.35"` (binary64 value of `4.35 * 100` is `434.99999999999994…`). -/
theorem clean_price_truncates_witness :
    parseDecimal (strip_dollar "4.35") = some (435, 2) ∧ (0 : ℤ) ≤ 435 ∧
    ∃ t : ℤ, clean_price "4.35" = some t ∧
      (t : ℚ) ≤ dyadicVal (pyPriceTimes100 435 2) ∧
      dyadicVal (pyPriceTimes100 435 2) < (t : ℚ) + 1 :=
  ⟨by decide, by decide, clean_price_truncates.1 "4.35" 435 2 (by decide) (by decide)⟩

/-- C1 counterexample: the claim says `clean_price` returns
`round(value * 100)`.  At input `"4.35"` the parsed value is `435 / 10 ^ 2`,
so `round(value * 100) = round(435) = 435`, yet the code returns 434 (the
binary64 product `4.35 * 100` is slightly below 435 and `int()` truncates). -/
theorem clean_price_round_counterexample :
    clean_price "4.35" = some 434 ∧
    parseDecimal (strip_dollar "4.35") = some (435, 2) ∧
    roundHalfEvenFrac (435 * 100) 100 = 435 ∧
    (434 : ℤ) ≠ 435 := by decide

/-- C2: the code does not guard the empty store: selecting the analysis with
zero products runs the statistics and `statistics.mean` raises on the empty
price list (modelled by `none`) — no "no data" report is produced. -/
theorem analyze_empty_database_raises :
    analyze_products { brands := [], products := [] } = none ∧ meanQ [] = none :=
  ⟨rfl, rfl⟩

/-- C3 (amended): the quantity the code computes is the population variance
(sum of squared deviations from the mean divided by the count), but the
reported integer is `round(pvariance / 100)` — the division by 100 happens
before the rounding, not at display time.  For the example list
`[999, 1299, 1299, 500]` the population variance is `106612.6875`
(not 85181.6875 as the spec example says) and the reported integer is 1066. -/
theorem pvariance_population_and_reported :
    (∀ (xs : List ℤ) (v : ℚ), pvarianceQ xs = some v →
        v = (xs.map (fun x : ℤ => ((x : ℚ) - meanOf xs) ^ 2)).sum / (xs.length : ℚ))
    ∧ pvarianceQ [999, 1299, 1299, 500] = some (1705803 / 16)
    ∧ pvReported [999, 1299, 1299, 500] = some 1066 := by
  refine ⟨?_, pvarianceQ_example, by decide⟩
  intro xs v h
  have hne : xs ≠ [] := by
    intro h0
    rw [h0] at h
    simp [pvarianceQ] at h
  rw [pvarianceQ_eq hne] at h
  exact (Option.some_inj.mp h).symm

/-- C3 witness: the population-variance formula instantiated at the example
list. -/
theorem pvariance_population_and_reported_witness :
    (1705803 / 16 : ℚ)
      = (([999, 1299, 1299, 500] : List ℤ).map
          (fun x : ℤ => ((x : ℚ) - meanOf [999, 1299, 1299, 500]) ^ 2)).sum
        / (([999, 1299, 1299, 500] : List ℤ).length : ℚ) :=
  pvariance_population_and_reported.1 [999, 1299, 1299, 500] (1705803 / 16)
    pvarianceQ_example

/-- C3 counterexample: for `P = [999, 1299, 1299, 500]` the population
variance is `1705803 / 16 = 106612.6875`, not `85181.6875` as the claim's
example says; and the reported integer is `1066` (the code divides by 100
before rounding), not `round(106612.6875) = 106613` as the claim requires. -/
theorem pvariance_reported_counterexample :
    pvarianceQ [999, 1299, 1299, 500] = some (1705803 / 16) ∧
    (1705803 / 16 : ℚ) ≠ 85181.6875 ∧
    pvReported [999, 1299, 1299, 500] = some 1066 ∧
    roundHalfEvenFrac 1705803 16 = 106613 ∧
    (1066 : ℤ) ≠ 106613 := by
  refine ⟨by norm_num [pvarianceQ, ssQ, meanOf], by norm_num, by decide, by decide, by decide⟩

/-- C4 (amended): `modePrice` is a value of maximal multiplicity, but the
tie-break is "first encountered in data (row) order", not "first in
ascending value order": `statistics.mode` keeps `Counter` insertion order,
which is the query's row order. -/
theorem mode_first_in_data_order (xs : List ℤ) (h : xs ≠ []) :
    ∃ m, modeQ xs = some m ∧ m ∈ xs ∧ xs.count m = maxCount xs ∧
      ∀ y ∈ xs, xs.count y = maxCount xs → xs.indexOf m ≤ xs.indexOf y := by
  have hex : ∃ x ∈ xs, (fun x => xs.count x == maxCount xs) x = true := by
    have hmem : maxCount xs ∈ xs.map (fun x => xs.count x) := by
      apply foldrMax_mem
      intro hmap
      exact h (by simpa using hmap)
    obtain ⟨x, hx, hcx⟩ := List.mem_map.mp hmem
    exact ⟨x, hx, by simp [hcx]⟩
  obtain ⟨m, hm⟩ := find?_of_exists hex
  refine ⟨m, hm, List.mem_of_find?_eq_some hm, ?_, ?_⟩
  · have := List.find?_some hm
    simpa using this
  · intro y hy hcy
    exact find?_indexOf_le hm y hy (by simp [hcy])

/-- C4 witness: the mode of the example price list `[999, 1299, 1299, 500]`
(data order) is 1299, of maximal multiplicity and earliest first occurrence
among maximal values. -/
theorem mode_first_in_data_order_witness :
    ∃ m, modeQ [999, 1299, 1299, 500] = some m ∧ m ∈ ([999, 1299, 1299, 500] : List ℤ) ∧
      ([999, 1299, 1299, 500] : List ℤ).count m = maxCount [999, 1299, 1299, 500] ∧
      ∀ y ∈ ([999, 1299, 1299, 500] : List ℤ),
        ([999, 1299, 1299, 500] : List ℤ).count y = maxCount [999, 1299, 1299, 500] →
        ([999, 1299, 1299, 500] : List ℤ).indexOf m ≤ ([999, 1299, 1299, 500] : List ℤ).indexOf y :=
  mode_first_in_data_order [999, 1299, 1299, 500] (by decide)

/-- C4 counterexample: on the price list `[5, 3]` (row order) both values
have multiplicity 1; the code's mode is 5 (first in data order), while the
claim's tie-break ("first most-frequent value scanning in ascending order")
demands 3. -/
theorem mode_ascending_counterexample :
    modeQ [5, 3] = some 5 ∧ modeAscendingSpec [5, 3] = some 3 ∧
    modeQ [5, 3] ≠ modeAscendingSpec [5, 3] := by decide

/-- C5 (amended): a row whose `brand_name` does not resolve (and that is not
skipped as a duplicate) makes `query(...).one()` raise, which aborts the
entire CSV import: no row of the batch — neither the offending one, nor the
rows after it, nor the uncommitted rows before it — is committed. -/
theorem import_bad_brand_aborts (brands : List Brand) (ps : List Product)
    (pre : List CsvRow) (r : CsvRow) (post : List CsvRow) (ps1 : List Product)
    (hpre : import_rows brands ps pre = some ps1)
    (hdup : (ps1.filter (fun p => p.product_name == r.product_name)).length = 0)
    (hbrand : lookupBrandOne brands r.brand_name = none) :
    add_products_csv brands ps (pre ++ r :: post) = none := by
  rw [add_products_csv, import_rows_append, hpre]
  show import_rows brands ps1 (r :: post) = none
  simp only [import_rows]
  rw [import_step_fails hdup hbrand]

/-- C5 witness: a three-row batch over the single brand `Acme`; the middle
row references the unknown brand `Bogus`, and the whole import returns
`none`. -/
theorem import_bad_brand_aborts_witness :
    import_rows [⟨1, "Acme"⟩] [] [⟨"Widget", "5", "1.00", "Acme", "01/02/2020"⟩]
        = some [⟨1, "Widget", 5, some 100, 20200102, some 1⟩] ∧
    (([⟨1, "Widget", 5, some 100, 20200102, some 1⟩] : List Product).filter
        (fun p => p.product_name == "Gadget")).length = 0 ∧
    lookupBrandOne [⟨1, "Acme"⟩] "Bogus" = none ∧
    add_products_csv [⟨1, "Acme"⟩] []
        ([⟨"Widget", "5", "1.00", "Acme", "01/02/2020"⟩] ++
          ⟨"Gadget", "2", "2.50", "Bogus", "01/03/2020"⟩ ::
          [⟨"Sprocket", "7", "3.00", "Acme", "01/04/2020"⟩]) = none :=
  ⟨by decide, by decide, by decide,
    import_bad_brand_aborts [⟨1, "Acme"⟩] [] [⟨"Widget", "5", "1.00", "Acme", "01/02/2020"⟩]
      ⟨"Gadget", "2", "2.50", "Bogus", "01/03/2020"⟩
      [⟨"Sprocket", "7", "3.00", "Acme", "01/04/2020"⟩]
      [⟨1, "Widget", 5, some 100, 20200102, some 1⟩] (by decide) (by decide) (by decide)⟩

/-- C5 counterexample: the claim says only the offending row fails and the
other rows are still imported.  On the concrete batch (`Widget`, `Gadget`
with unknown brand, `Sprocket`) the import returns `none` — nothing is
committed — whereas under the claim it would succeed with `Widget` and
`Sprocket` imported (the `some` value below). -/
theorem import_batch_counterexample :
    add_products_csv [⟨1, "Acme"⟩] []
      [⟨"Widget", "5", "1.00", "Acme", "01/02/2020"⟩,
       ⟨"Gadget", "2", "2.50", "Bogus", "01/03/2020"⟩,
       ⟨"Sprocket", "7", "3.00", "Acme", "01/04/2020"⟩] = none ∧
    (none : Option (List Product))
      ≠ some [⟨1, "Widget", 5, some 100, 20200102, some 1⟩,
              ⟨2, "Sprocket", 7, some 300, 20200104, some 1⟩] := by decide

/-- C6: `medianPrice` is the middle element of the sorted price list for odd
length and the average of the two central elements for even length — stated
against any sorted permutation `l` of the input. -/
theorem median_middle_of_sorted (xs l : List ℤ) (hne : xs ≠ [])
    (hperm : l.Perm xs) (hsort : l.Sorted (· ≤ ·)) :
    medianQ xs = some (if xs.length % 2 = 1 then ((l.getD (xs.length / 2) 0 : ℤ) : ℚ)
      else (((l.getD (xs.length / 2 - 1) 0 : ℤ) : ℚ) + ((l.getD (xs.length / 2) 0 : ℤ) : ℚ)) / 2) := by
  have hl : l = sortedInts xs :=
    List.eq_of_perm_of_sorted (hperm.trans (List.perm_insertionSort _ xs).symm) hsort
      (List.sorted_insertionSort _ xs)
  subst hl
  have hlen : xs.length ≠ 0 := fun h0 => hne (List.length_eq_zero.mp h0)
  rw [medianQ]
  simp only [if_neg hlen]
  split_ifs <;> rfl

/-- C6 witness: the median of `[999, 1299, 1299, 500]` is the average of the
central elements of its sorted permutation `[500, 999, 1299, 1299]`, namely
1149. -/
theorem median_middle_of_sorted_witness :
    medianQ [999, 1299, 1299, 500] = some 1149 := by
  have h := median_middle_of_sorted [999, 1299, 1299, 500] [500, 999, 1299, 1299]
    (by decide) (by decide) (by decide)
  rw [h]
  norm_num [List.getD]

/-- C7 (amended): the reported standard deviation is the square root of the
population variance of the prices themselves (`pstdev`), i.e. the
nonnegative real whose square is `pvariance(P)` — not the square root of the
reported (divided-by-100-and-rounded) variance integer. -/
theorem pstdev_sqrt_population_variance (xs : List ℤ) (v : ℚ)
    (h : pvarianceQ xs = some v) :
    ∃ r : ℝ, pstdevR xs = some r ∧ 0 ≤ r ∧ r ^ 2 = (v : ℝ) := by
  refine ⟨Real.sqrt (v : ℝ), ?_, Real.sqrt_nonneg _, ?_⟩
  · rw [pstdevR, h]
    rfl
  · have hv : 0 ≤ v := pvarianceQ_nonneg h
    exact Real.sq_sqrt (by exact_mod_cast hv)

/-- C7 witness: instantiation at the example price list, whose population
variance is `1705803 / 16`. -/
theorem pstdev_sqrt_population_variance_witness :
    pvarianceQ [999, 1299, 1299, 500] = some (1705803 / 16) ∧
    ∃ r : ℝ, pstdevR [999, 1299, 1299, 500] = some r ∧ 0 ≤ r ∧
      r ^ 2 = ((1705803 / 16 : ℚ) : ℝ) :=
  ⟨pvarianceQ_example,
    pstdev_sqrt_population_variance [999, 1299, 1299, 500] (1705803 / 16) pvarianceQ_example⟩

/-- C7 counterexample: at `P = [999, 1299, 1299, 500]` the reported standard
deviation is `sqrt 106612.6875 ≈ 326.5`, while the square root of the
reported variance integer (1066) is `≈ 32.6`; the claimed identity
`priceStdDev(P) = sqrt(reported priceVariance(P))` fails. -/
theorem pstdev_reported_counterexample :
    pstdevR [999, 1299, 1299, 500]
      ≠ (pvReported [999, 1299, 1299, 500]).map (fun z : ℤ => Real.sqrt (z : ℝ)) := by
  intro hcontra
  rw [pstdevR, pvarianceQ_example,
    (by decide : pvReported [999, 1299, 1299, 500] = some 1066)] at hcontra
  simp only [Option.map_some'] at hcontra
  have h2 := congrArg (fun t : ℝ => t ^ 2) (Option.some_inj.mp hcontra)
  simp only at h2
  rw [Real.sq_sqrt (by positivity), Real.sq_sqrt (by positivity)] at h2
  norm_num at h2

/-- C8: the backup CSV is exactly the fixed header followed by one row per
product in ascending `product_id` order, each row carrying the raw integer
price (see `backupRow`); stated via a sorted permutation of the stored
products. -/
theorem backup_header_and_sorted_rows (s : DbState) :
    ∃ l : List Product, l.Perm s.products ∧ l.Pairwise idLe ∧
      backup_db s = backupHeader :: l.map backupRow :=
  ⟨List.insertionSort idLe s.products, List.perm_insertionSort idLe s.products,
    List.sorted_insertionSort idLe s.products, rfl⟩

/-- C9: the analysis performs no writes: run as a state transformer it
returns every product row, every brand row — the whole database state —
unchanged. -/
theorem analysis_writes_nothing (s : DbState) :
    (analyze_products_op s).1.products = s.products ∧
    (analyze_products_op s).1.brands = s.brands ∧ (analyze_products_op s).1 = s :=
  ⟨rfl, rfl, rfl⟩

/-- C10: adding a product whose name already exists (with confirmation)
inserts no new row: the row with that name carrying the latest
`date_updated` is overwritten in place with the new quantity, price, brand
and timestamp, every other row is untouched, and the product count is
unchanged. -/
theorem add_product_duplicate_updates (s : DbState) (name : String) (qty price : ℤ)
    (brand : Option ℕ) (now : ℕ) (p : Product)
    (hp : p ∈ s.products) (hname : p.product_name = name)
    (huniq : ∀ q ∈ s.products, q.product_name = name → q = p ∨ q.date_updated < p.date_updated) :
    (add_product s name qty price brand now true).products.length = s.products.length ∧
    (add_product s name qty price brand now true).brands = s.brands ∧
    ∃ pre post, s.products = pre ++ p :: post ∧
      (add_product s name qty price brand now true).products =
        pre ++ { p with product_quantity := qty, product_price := some price,
                        brand_id := brand, date_updated := now } :: post := by
  have hpf : p ∈ s.products.filter (fun q => q.product_name == name) :=
    List.mem_filter.mpr ⟨hp, by simp [hname]⟩
  have hlen : 0 < (s.products.filter (fun q => q.product_name == name)).length :=
    List.length_pos.mpr (List.ne_nil_of_mem hpf)
  have hld : latestDate s.products name = p.date_updated := by
    apply le_antisymm
    · apply foldrMax_le
      intro n hn
      obtain ⟨q, hq, rfl⟩ := List.mem_map.mp hn
      have hqm := List.mem_filter.mp hq
      have hqname : q.product_name = name := by simpa using hqm.2
      rcases huniq q hqm.1 hqname with rfl | hlt
      · exact le_refl _
      · exact le_of_lt hlt
    · exact le_foldrMax (List.mem_map.mpr ⟨p, hpf, rfl⟩)
  have hpb : (fun q : Product =>
      q.product_name == name && q.date_updated == latestDate s.products name) p = true := by
    simp [hname, hld]
  have huniq2 : ∀ q ∈ s.products,
      (fun q : Product =>
        q.product_name == name && q.date_updated == latestDate s.products name) q = true →
      q = p := by
    intro q hq hqb
    simp only [Bool.and_eq_true, beq_iff_eq] at hqb
    rcases huniq q hq hqb.1 with h | hlt
    · exact h
    · exfalso
      rw [hld] at hqb
      omega
  obtain ⟨pre, post, hl, hu⟩ := updateFirst_decomp huniq2 hp hpb
  have hres : (add_product s name qty price brand now true).products =
      pre ++ { p with product_quantity := qty, product_price := some price,
                      brand_id := brand, date_updated := now } :: post := by
    rw [add_product, if_pos hlen]
    exact hu
  refine ⟨?_, ?_, pre, post, hl, hres⟩
  · rw [hres, hl]
    simp
  · rw [add_product, if_pos hlen]
    rfl

/-- C10 witness: with two stored products, adding `"apple"` (already
present, latest and only row with that name is product 1) with the operator
confirming overwrites product 1 in place and leaves the count at 2. -/
theorem add_product_duplicate_updates_witness :
    (add_product ⟨[], [⟨1, "apple", 5, some 100, 20200101, none⟩,
                       ⟨2, "pear", 3, some 200, 20200202, some 1⟩]⟩
        "apple" 7 250 (some 2) 20210101 true).products.length
      = ([⟨1, "apple", 5, some 100, 20200101, none⟩,
          ⟨2, "pear", 3, some 200, 20200202, some 1⟩] : List Product).length ∧
    (add_product ⟨[], [⟨1, "apple", 5, some 100, 20200101, none⟩,
                       ⟨2, "pear", 3, some 200, 20200202, some 1⟩]⟩
        "apple" 7 250 (some 2) 20210101 true).brands = ([] : List Brand) ∧
    ∃ pre post,
      ([⟨1, "apple", 5, some 100, 20200101, none⟩,
        ⟨2, "pear", 3, some 200, 20200202, some 1⟩] : List Product)
        = pre ++ (⟨1, "apple", 5, some 100, 20200101, none⟩ : Product) :: post ∧
      (add_product ⟨[], [⟨1, "apple", 5, some 100, 20200101, none⟩,
                         ⟨2, "pear", 3, some 200, 20200202, some 1⟩]⟩
          "apple" 7 250 (some 2) 20210101 true).products
        = pre ++ (⟨1, "apple", 7, some 250, 20210101, some 2⟩ : Product) :: post :=
  add_product_duplicate_updates
    ⟨[], [⟨1, "apple", 5, some 100, 20200101, none⟩,
          ⟨2, "pear", 3, some 200, 20200202, some 1⟩]⟩
    "apple" 7 250 (some 2) 20210101 ⟨1, "apple", 5, some 100, 20200101, none⟩
    (by decide) (by decide) (by decide)

/-- Cross-check of the binary64 model against IEEE-754: the double nearest
to `1/10` is `7205759403792794 * 2 ^ (-56)` (the canonical 53-bit encoding
of Python's `0.1`). -/
theorem fl64Frac_check_tenth : fl64Frac 1 10 = ⟨7205759403792794, -56⟩ := by decide

/-- Cross-check: the double nearest to `12.99` is
`7312719894942843 * 2 ^ (-49)`, and multiplying it by 100 in binary64 gives
exactly `1299` (mantissa `1299 * 2 ^ 42`). -/
theorem fl64Frac_check_1299 :
    fl64Frac 1299 100 = ⟨7312719894942843, -49⟩ ∧
    dyadicMul100 ⟨7312719894942843, -49⟩ = ⟨5713062417924096, -42⟩ ∧
    (5713062417924096 : ℤ) = 1299 * 2 ^ 42 := by decide
